import Mathlib

/-!
Shallow embedding of the llk parser-combinator engine (Go).

The Go sources embedded here are:
- the result algebra (`locs`, `parseError`, `Result`, `Succeeded`, `Failed`,
  `Halt`, `merge`, `Join`) from the generic `types` package;
- the backtracking tokeniser (`Loc`, `Inc`, `Dec`, `Seek`, `Peek`) from
  `llk.go`, together with the `Line`/`Column`/`ScanErr` surface that the
  generic `Tokeniser` interface adds;
- the primitive recognisers `Empty` and `Term` (`Term.Parse`);
- the continuation chain engine `M` (`NewM`, `WithName`, `WithResult`,
  `WithLazies`, `Lazy`, `Chain`, `Return`, `Parse`) and the two folders
  `Seq` and `Either` from `llk.go`.

Modelling conventions:
- Go interface values of type `Result` may be nil (the zero value); the
  embedding has an explicit `Result.nilR` constructor for that value.
  Calling a method through a nil interface, a failed type assertion, an
  out-of-range slice index and an explicit `panic` are all runtime panics;
  fallible operations therefore return `Option`, with `none` standing for a
  panic.
- Go `map[int]None` location sets are modelled as `Finset Int`; the
  `range` iteration order of such a map is unspecified in Go, and the
  embedding fixes it to the ascending order (`sortLocs`).
- The mutually recursive executions (`M.Parse` and the folders) are
  modelled with an explicit fuel parameter; `POut.timeout` marks fuel
  exhaustion and is an artefact of the embedding, never a behaviour of
  the program.
- Values carried by parsers are Go `any`; the embedding uses the closed
  type `Val` (nil, int64, string) which covers every value the engine and
  its tests construct.
-/

namespace LLK

/-- Go `any` values used by the engine: nil, int64 and string. -/
inductive Val where
  | vnil
  | vint (n : Int)
  | vstr (s : String)
deriving DecidableEq, Repr

/-- `types.Token`: an immutable pair of a lexical category (a Go rune)
and the matched text. -/
structure Token where
  category : Int
  matched : String
deriving DecidableEq, Repr

/-- The generic `types.parseError`: `(Expected, Found, Line, Column)`. -/
structure ParseError where
  expected : String
  found : String
  line : Int
  column : Int
deriving DecidableEq, Repr

/-- `types.locs`, a `map[int]None`: a finite set of stream locations. -/
abbrev Locs := Finset Int

/-- `types.NewLocs`: the singleton location set. -/
def NewLocs (l : Int) : Locs := {l}

/-- `locs.Merge`: union of two location sets (the Go code inserts every
element of `b` into `a`). -/
def locsMerge (a b : Locs) : Locs := a ∪ b

/-- The order in which the embedding iterates a location set (Go map
iteration order is unspecified; the embedding fixes the ascending
order).  Insertion sort of the underlying list, lifted to the
multiset quotient. -/
def sortLocs (L : Locs) : List Int :=
  Quot.liftOn L.val (fun l => l.insertionSort (· ≤ ·)) (fun l1 l2 h =>
    List.eq_of_perm_of_sorted ((l1.perm_insertionSort (· ≤ ·)).trans
        (h.trans (l2.perm_insertionSort (· ≤ ·)).symm))
      (List.sorted_insertionSort (· ≤ ·) l1) (List.sorted_insertionSort (· ≤ ·) l2))

/-- The `types.Result` interface value. `nilR` is the Go nil interface
(the zero value of the type), which is what `M.Parse` returns on an empty
queue; `Halt` is the struct embedding a nil `Result`. -/
inductive Result where
  | nilR
  | Succeeded (locs : Locs) (v : Val)
  | Failed (errs : List ParseError)
  | Halt (component msg : String) (line col : Int)
deriving DecidableEq

/-- `types.NewSucceeded`. -/
def NewSucceeded (v : Val) (l : Int) : Result := .Succeeded (NewLocs l) v

/-- `types.NewFailed` as called by `llk.go` (one expected string, no
found text, no position). -/
def NewFailed (s : String) : Result := .Failed [⟨s, "", 0, 0⟩]

/-- The generic `types.NewScanFailed`: one diagnostic carrying expected
text, found text, line and column. -/
def NewScanFailed (expected found : String) (line col : Int) : Result :=
  .Failed [⟨expected, found, line, col⟩]

/-- `types.NewHalt` followed by `WithLineAndColumn`. -/
def NewHalt (c m : String) (line col : Int) : Result := .Halt c m line col

/-- `Result.value()`. `Succeeded` returns its value, `Failed` returns Go
nil; on `Halt` the call goes through the embedded nil `Result` and on a
nil interface there is no method at all: both panic (`none`). -/
def Result.value : Result → Option Val
  | .Succeeded _ v => some v
  | .Failed _ => some .vnil
  | _ => none

/-- `Result.Locs()`. `Succeeded` returns its set, `Failed` the empty set;
`Halt` (embedded nil) and the nil interface panic. -/
def Result.locsOf : Result → Option Locs
  | .Succeeded l _ => some l
  | .Failed _ => some ∅
  | _ => none

/-- `Succeeded.merge` / `Failed.merge`: defined only on same-variant
pairs; the Go type assertion `b.(Succeeded)` (resp. `b.(Failed)`) panics
on anything else, and `Halt`/nil receivers have no own `merge`. -/
def Result.merge : Result → Result → Option Result
  | .Succeeded la _, .Succeeded lb vb => some (.Succeeded (locsMerge la lb) vb)
  | .Failed ea, .Failed eb => some (.Failed (ea ++ eb))
  | _, _ => none

/-- `Succeeded.Join` / `Failed.Join`: the cross-variant table of the Go
code. A `Halt` or nil receiver dispatches through a nil embedded
interface and panics; a nil argument falls through every `case` of the
Go type switch into `panic(ErrInternal)`. -/
def Result.Join : Result → Result → Option Result
  | .Succeeded la va, .Succeeded lb vb => (Result.Succeeded la va).merge (.Succeeded lb vb)
  | .Succeeded la va, .Failed _ => some (.Succeeded la va)
  | .Succeeded _ _, .Halt c m li co => some (.Halt c m li co)
  | .Failed _, .Succeeded lb vb => some (.Succeeded lb vb)
  | .Failed ea, .Failed eb => (Result.Failed ea).merge (.Failed eb)
  | .Failed _, .Halt c m li co => some (.Halt c m li co)
  | _, _ => none

/-- `types.ScanErr`: an error type tag and message.  The tags are
`ScanErrEOF = -1` and `ScanErrMsg = -2`; the zero value `ScanErr{0, ""}`
signals an ordinary token. -/
structure ScanErr where
  errType : Int
  errMsg : String
deriving DecidableEq, Repr

/-- The concrete `tokeniser` of `llk.go`: the pending output of the
underlying lexical scanner (`scanner`), the append-only cache of scanned
tokens (`tokens`), the cursor (`loc`), and the `Line`/`Column` values the
generic interface exposes. -/
structure Tok where
  scanner : List Token
  tokens : List Token
  loc : Int
  line : Int
  column : Int
deriving DecidableEq, Repr

/-- `tokeniser.Inc`: moves the cursor forward.  The Go body is `t.loc++`
with no bounds check. -/
def Tok.Inc (t : Tok) : Tok := { t with loc := t.loc + 1 }

/-- `tokeniser.Dec`: moves the cursor backward.  The Go body is `t.loc--`
with no bounds check. -/
def Tok.Dec (t : Tok) : Tok := { t with loc := t.loc - 1 }

/-- `tokeniser.Seek`: panics (`ErrBadLoc`) when the target is outside
`[0, len(tokens)]`, otherwise sets the cursor. -/
def Tok.Seek (t : Tok) (k : Int) : Option Tok :=
  if k < 0 ∨ k > (t.tokens.length : Int) then none
  else some { t with loc := k }

/-- `tokeniser.Peek`: returns the token at the cursor, scanning and
appending exactly one token when the cursor sits past the cache.  At end
of input it reports `ScanErrEOF` with the zero token (Go returns the
zero `Token` and `ok = false`; the generic interface carries the same
information as a `ScanErr`).  Indexing the cache outside its bounds — a
negative cursor, or a cursor more than one past the cache — panics. -/
def Tok.Peek (t : Tok) : Option (Token × ScanErr × Tok) :=
  if t.loc ≥ (t.tokens.length : Int) then
    match t.scanner with
    | [] => some (⟨0, ""⟩, ⟨-1, ""⟩, t)
    | tok :: rest =>
      let t1 : Tok := { t with scanner := rest, tokens := t.tokens ++ [tok] }
      if t.loc = (t.tokens.length : Int) then some (tok, ⟨0, ""⟩, t1)
      else none
  else
    if h : 0 ≤ t.loc ∧ t.loc.toNat < t.tokens.length then
      some (t.tokens.get ⟨t.loc.toNat, h.2⟩, ⟨0, ""⟩, t)
    else none

/-- `types.Term`: a name, a lexical category, an optional exact-match
constraint (the empty string means unconstrained) and a converter over
the matched text (`none` is a conversion error). -/
structure Term where
  name : String
  category : Int
  exactMatch : String
  converter : String → Option Val

/-- `types.NewTerm`: the identity converter wraps the text as a string
value. -/
def NewTerm (name : String) (category : Int) : Term :=
  ⟨name, category, "", fun s => some (.vstr s)⟩

/-- `Term.WithExactMatch`. -/
def Term.WithExactMatch (t : Term) (s : String) : Term := { t with exactMatch := s }

/-- `Term.WithConverter`. -/
def Term.WithConverter (t : Term) (c : String → Option Val) : Term := { t with converter := c }

/-- `Term.Parse` (generic `types` version): peek the current token; end
of input or a scanner error halt, a category or exact-match mismatch
fails with one positioned diagnostic, a converter error halts, and
otherwise the stream advances by one and the converted value succeeds at
the new location. -/
def Term.Parse (tm : Term) (t : Tok) : Option (Result × Tok) :=
  let tokLine := t.line
  let tokCol := t.column
  match t.Peek with
  | none => none
  | some (token, scanErr, t1) =>
    if scanErr.errType = -1 then
      some (NewHalt "scanner" "end of file" tokLine tokCol, t1)
    else if scanErr.errType = -2 then
      some (NewHalt "scanner" scanErr.errMsg tokLine tokCol, t1)
    else if token.category ≠ tm.category ∨ (tm.exactMatch ≠ "" ∧ token.matched ≠ tm.exactMatch) then
      some (NewScanFailed tm.name token.matched tokLine tokCol, t1)
    else
      match tm.converter token.matched with
      | none => some (NewHalt "conversion" "went wrong" tokLine tokCol, t1)
      | some v =>
        let t2 := t1.Inc
        some (NewSucceeded v t2.loc, t2)

/-- The two folder functions the repository instantiates `M` with:
the `Seq` folder and the `Either` folder of `llk.go`. -/
inductive FolderTag where
  | seqF
  | eitherF
deriving DecidableEq, Repr

mutual

/-- The `Parser` interface together with the chain node `M`.  A chain
node (`NewM` and the builders) carries a name, its folder, the
accumulated `Result` of the previous continuation, and the queue of
pending lazy continuations (`lazies`), each a function from the previous
value to the next parser. -/
inductive Parser where
  | empty (v : Val)
  | term (tm : Term)
  | node (name : String) (folder : FolderTag) (result : Result) (lazies : Lazies)

/-- The continuation queue of a chain node: a list of `lazy`
continuations `V -> Parser`. -/
inductive Lazies where
  | nil
  | cons (f : Val → Parser) (tl : Lazies)

end

/-- Concatenation of continuation queues (Go slice append). -/
def Lazies.append : Lazies → Lazies → Lazies
  | .nil, bs => bs
  | .cons f tl, bs => .cons f (tl.append bs)

/-- A one-element continuation queue. -/
def Lazies.one (f : Val → Parser) : Lazies := .cons f .nil

/-- `types.NewLazy`: a continuation that ignores its input. -/
def NewLazy (p : Parser) : Val → Parser := fun _ => p

/-- `types.Wrap`: a continuation that ends the chain with an `Empty`
holding the transformed previous value. -/
def Wrap (f : Val → Val) : Val → Parser := fun v => .empty (f v)

/-- `types.NewM`: a fresh chain node with the given folder, the
`Failed{}` sentinel (an empty diagnostics list) as accumulated result,
and an empty queue. -/
def NewM (f : FolderTag) : Parser := .node "" f (.Failed []) .nil

/-- `M.WithName` (identity on non-node parsers, which have no name
field). -/
def Parser.WithName : Parser → String → Parser
  | .node _ f r ls, n => .node n f r ls
  | p, _ => p

/-- `M.WithResult`. -/
def Parser.WithResult : Parser → Result → Parser
  | .node n f _ ls, r => .node n f r ls
  | p, _ => p

/-- `M.WithLazies`. -/
def Parser.WithLazies : Parser → Lazies → Parser
  | .node n f r ls, fs => .node n f r (ls.append fs)
  | p, _ => p

/-- `M.Lazy`: a new node with the same folder and accumulated result and
the continuations appended to the queue (`NewM(m.folder).WithResult(
m.result).WithLazies(m.lazies...).WithLazies(lazies...)`; the name is
not carried over). -/
def Parser.Lazy : Parser → Lazies → Parser
  | .node _ f r ls, fs => .node "" f r (ls.append fs)
  | p, _ => p

/-- `M.Chain`: appends a continuation ignoring the previous value. -/
def Parser.Chain (m : Parser) (p : Parser) : Parser := m.Lazy (Lazies.one (NewLazy p))

/-- `M.Return`: appends a continuation wrapping the transformed previous
value in an `Empty`. -/
def Parser.Return (m : Parser) (f : Val → Val) : Parser := m.Lazy (Lazies.one (Wrap f))

/-- `llk.Seq`: a fresh chain node bound to the sequence folder, named,
and chained with the first constituent parser. -/
def Seq (n : String) (p : Parser) : Parser := ((NewM .seqF).WithName n).Chain p

/-- `llk.Either`: a fresh chain node bound to the alternation folder,
named, and chained with the first constituent parser. -/
def Either (n : String) (p : Parser) : Parser := ((NewM .eitherF).WithName n).Chain p

/-- Outcome of executing a parser: a returned `Result` with the
resulting tokeniser state, a runtime panic, or fuel exhaustion (the
latter an artefact of the fuel-indexed embedding). -/
inductive POut where
  | ok (r : Result) (t : Tok)
  | panic
  | timeout
deriving DecidableEq

mutual

/-- `Parser.Parse` dispatch: `Empty.Parse` succeeds at the current
location with its value; `Term.Parse` as above (a `none` is a panic);
a chain node runs `M.Parse`. -/
def parseP : Nat → Parser → Tok → POut
  | 0, _, _ => .timeout
  | Nat.succ _, .empty v, t => .ok (NewSucceeded v t.loc) t
  | Nat.succ _, .term tm, t =>
    match tm.Parse t with
    | some (r, t1) => .ok r t1
    | none => .panic
  | Nat.succ fuel, .node n f res ls, t => mparse fuel n f res ls t

/-- `M.Parse`: with an empty queue it returns the named zero value `r`,
the nil `Result`.  Otherwise it pops the first continuation, applies it
to `m.result.value()` (a panic when the accumulated result has no value
method), executes the returned parser, returns a `Halt` immediately,
returns the result directly when the queue held a single continuation,
and otherwise hands a new node with the fresh result and the remaining
queue to the folder. -/
def mparse : Nat → String → FolderTag → Result → Lazies → Tok → POut
  | 0, _, _, _, _, _ => .timeout
  | Nat.succ _, _, _, _, .nil, t => .ok .nilR t
  | Nat.succ fuel, n, f, res, .cons l rest, t =>
    match res.value with
    | none => .panic
    | some v =>
      match parseP fuel (l v) t with
      | .timeout => .timeout
      | .panic => .panic
      | .ok r t1 =>
        match r with
        | .Halt c m li co => .ok (.Halt c m li co) t1
        | _ =>
          match rest with
          | .nil => .ok r t1
          | .cons _ _ => applyFolder fuel f n r rest t1

/-- The folder call `m.folder(NewM(m.folder).WithName(m.name).
WithResult(r).WithLazies(lazies...), t)`.  The `Either` folder is
`c.Result().Join(c.Parse(s))`; the `Seq` folder seeds its accumulator
from the accumulated result (`Failed` propagates, `Succeeded` seeds
`NewFailed("")`, anything else leaves the Go named return nil), then
folds the per-location executions over the location set in ascending
order. -/
def applyFolder : Nat → FolderTag → String → Result → Lazies → Tok → POut
  | 0, _, _, _, _, _ => .timeout
  | Nat.succ fuel, .eitherF, n, res, rest, t =>
    match mparse fuel n .eitherF res rest t with
    | .ok r2 t2 =>
      match res.Join r2 with
      | some r3 => .ok r3 t2
      | none => .panic
    | out => out
  | Nat.succ fuel, .seqF, n, res, rest, t =>
    let acc : Result :=
      match res with
      | .Failed es => .Failed es
      | .Succeeded _ _ => NewFailed ""
      | _ => .nilR
    match res.locsOf with
    | none => .panic
    | some locSet => seqLoop fuel n res rest acc (sortLocs locSet) t

/-- The `for loc := range c.Result().Locs()` loop of the `Seq` folder:
seek each location, execute the `Parse` of the node there, and `Join` the
outcome into the accumulator. -/
def seqLoop : Nat → String → Result → Lazies → Result → List Int → Tok → POut
  | 0, _, _, _, _, _, _ => .timeout
  | Nat.succ _, _, _, _, acc, [], t => .ok acc t
  | Nat.succ fuel, n, res, rest, acc, loc :: more, t =>
    match t.Seek loc with
    | none => .panic
    | some t1 =>
      match mparse fuel n .seqF res rest t1 with
      | .ok r2 t2 =>
        match acc.Join r2 with
        | some acc2 => seqLoop fuel n res rest acc2 more t2
        | none => .panic
      | out => out

end

/-! Auxiliary notions used to state and prove the claims. -/

/-- The per-location executions of the loop of the `Seq` folder: seek each
location, run the node once there, and collect the `Result` of every
attempt together with the final tokeniser state.  This mirrors
`seqLoop` step for step, recording the outcomes instead of folding
them. -/
def seqSteps : Nat → String → Result → Lazies → List Int → Tok → Option (List Result × Tok)
  | 0, _, _, _, _, _ => none
  | Nat.succ _, _, _, _, [], t => some ([], t)
  | Nat.succ fuel, n, res, rest, loc :: more, t =>
    match t.Seek loc with
    | none => none
    | some t1 =>
      match mparse fuel n .seqF res rest t1 with
      | .ok r t2 =>
        match seqSteps fuel n res rest more t2 with
        | some (rs, t3) => some (r :: rs, t3)
        | none => none
      | _ => none

/-- Fold the `Join` of a list of results into an accumulator, as the
loop of the `Seq` folder does; `none` when any `Join` panics. -/
def foldJoinOpt : Result → List Result → Option Result
  | acc, [] => some acc
  | acc, r :: rs =>
    match acc.Join r with
    | some acc2 => foldJoinOpt acc2 rs
    | none => none

/-- Whether a result is an ordinary (`Succeeded` or `Failed`) parse
outcome, as opposed to a `Halt` or the nil interface value. -/
def isSF : Result → Bool
  | .Succeeded _ _ => true
  | .Failed _ => true
  | _ => false

/-- The location set of a result, empty for anything but `Succeeded`. -/
def Result.theLocs : Result → Locs
  | .Succeeded l _ => l
  | _ => ∅

/-- Union of the location sets of a list of results. -/
def unionLocs (rs : List Result) : Locs :=
  rs.foldr (fun r A => r.theLocs ∪ A) ∅

/-- A cursor/lookahead operation on the tokeniser, for stating
properties of arbitrary operation sequences. -/
inductive TokOp where
  | opInc
  | opDec
  | opSeek (k : Int)
  | opPeek

/-- Run one tokeniser operation (`Peek` for its state effect). -/
def runOp : TokOp → Tok → Option Tok
  | .opInc, t => some t.Inc
  | .opDec, t => some t.Dec
  | .opSeek k, t => t.Seek k
  | .opPeek, t =>
    match t.Peek with
    | some (_, _, t1) => some t1
    | none => none

/-- Run a sequence of tokeniser operations. -/
def runOps : List TokOp → Tok → Option Tok
  | [], t => some t
  | op :: ops, t =>
    match runOp op t with
    | some t1 => runOps ops t1
    | none => none

/-! Concrete inputs for the associativity analysis of the chain engine
(claim C1): an alternation chain seeded with `Empty(5)`, a continuation
returning an alternation whose second step fails, and a final
continuation echoing the value it receives. -/

/-- Input stream holding a single token of category 1 with text x. -/
def c1Tok : Tok := ⟨[⟨1, "x"⟩], [], 0, 0, 0⟩

/-- A terminal expecting category 2, which fails on the category-1
input token. -/
def c1TermFail : Term := ⟨"T", 2, "", fun s => some (.vstr s)⟩

/-- The chain `Either(n, Empty(5))`. -/
def c1Base : Parser := (NewM .eitherF).Chain (.empty (.vint 5))

/-- Continuation returning the chain `Either(Empty(7)).Chain(failing
terminal)`, whose own parse succeeds with value 7. -/
def c1F1 : Val → Parser :=
  fun _ => ((NewM .eitherF).Chain (.empty (.vint 7))).Chain (.term c1TermFail)

/-- Continuation ending the chain with the received value. -/
def c1F2 : Val → Parser := fun v => .empty v

/-- C1: the claim states that `a.Lazy(f1).Lazy(f2)` and
`a.Lazy(v -> f1(v).Lazy(f2))` produce identical Results on every input.
The code violates this (contradicting the doc comment on `M.Lazy`): with
`a = Either(Empty(5))`, `f1` returning an alternation whose second step
fails, and `f2 = v -> Empty(v)`, the flat grouping feeds `f2` the joined
value 7 of the whole chain of `f1`, while the nested grouping feeds `f2` the
nil value of the failed last step, yielding Success values 7 and nil
respectively. -/
theorem C1_lazy_assoc_violated :
    parseP 30 ((c1Base.Lazy (Lazies.one c1F1)).Lazy (Lazies.one c1F2)) c1Tok
        = .ok (.Succeeded {0} (.vint 7)) ⟨[], [⟨1, "x"⟩], 0, 0, 0⟩
      ∧ parseP 30 (c1Base.Lazy (Lazies.one (fun v => (c1F1 v).Lazy (Lazies.one c1F2)))) c1Tok
        = .ok (.Succeeded {0} .vnil) ⟨[], [⟨1, "x"⟩], 0, 0, 0⟩
      ∧ (Result.Succeeded {0} (.vint 7)) ≠ (.Succeeded {0} .vnil) :=
  ⟨by decide, by decide, by decide⟩

/-- C2 (amended): the defined rows of the `Join` table.  A `Halt` on the
right always wins; Success/Success and Failure/Failure merge;
Success/Failure keeps the left operand and Failure/Success the right;
but `Join` invoked on a `Halt` receiver is a runtime panic (the call
dispatches through the nil `Result` embedded in the `Halt`), not a `Halt`
result. -/
theorem C2_join_table :
    (∀ la va lb vb, (Result.Succeeded la va).Join (.Succeeded lb vb)
        = some (.Succeeded (locsMerge la lb) vb))
  ∧ (∀ la va es, (Result.Succeeded la va).Join (.Failed es) = some (.Succeeded la va))
  ∧ (∀ es lb vb, (Result.Failed es).Join (.Succeeded lb vb) = some (.Succeeded lb vb))
  ∧ (∀ ea eb, (Result.Failed ea).Join (.Failed eb) = some (.Failed (ea ++ eb)))
  ∧ (∀ la va c m li co, (Result.Succeeded la va).Join (.Halt c m li co)
        = some (.Halt c m li co))
  ∧ (∀ es c m li co, (Result.Failed es).Join (.Halt c m li co) = some (.Halt c m li co))
  ∧ (∀ c m li co b, (Result.Halt c m li co).Join b = none) := by
  refine ⟨fun _ _ _ _ => rfl, fun _ _ _ => rfl, fun _ _ _ => rfl, fun _ _ => rfl,
    fun _ _ _ _ _ _ => rfl, fun _ _ _ _ _ => rfl, fun c m li co b => ?_⟩
  cases b <;> rfl

/-- C2 counterexample: `join(Halt, x)` does not yield the `Halt` — the
dispatch panics, so there is no result at all. -/
theorem C2_halt_receiver_cex :
    (Result.Halt "scanner" "end of file" 0 0).Join (.Succeeded {0} .vnil)
      ≠ some (.Halt "scanner" "end of file" 0 0) := by decide

/-- C6 (amended): a chain node with an empty continuation queue returns
the zero value of the `Result` interface (nil) from `Parse`, regardless
of its accumulated result — not the accumulated result. -/
theorem C6_empty_queue_nil (fuel : Nat) (n : String) (f : FolderTag) (res : Result) (t : Tok) :
    parseP (fuel + 2) (.node n f res .nil) t = .ok .nilR t := rfl

/-- C6 counterexample: a node whose accumulated result is a `Failed`
with one diagnostic and whose queue is empty parses to the nil result,
which differs from the accumulated result. -/
theorem C6_empty_queue_cex :
    parseP 2 (.node "x" .eitherF (.Failed [⟨"e", "f", 0, 0⟩]) .nil) ⟨[], [], 0, 0, 0⟩
        = .ok .nilR ⟨[], [], 0, 0, 0⟩
      ∧ Result.nilR ≠ .Failed [⟨"e", "f", 0, 0⟩] := by
  exact ⟨rfl, by decide⟩

/-- C7: `merge` on two Successes unions the location sets (commutatively
in the set part) and keeps the value of the second operand; `merge` on two
Failures concatenates the diagnostics in encounter order. -/
theorem C7_merge_laws :
    (∀ la va lb vb, (Result.Succeeded la va).merge (.Succeeded lb vb)
        = some (.Succeeded (locsMerge la lb) vb))
  ∧ (∀ la va lb vb, ((Result.Succeeded la va).merge (.Succeeded lb vb)).bind Result.locsOf
        = ((Result.Succeeded lb vb).merge (.Succeeded la va)).bind Result.locsOf)
  ∧ (∀ ea eb, (Result.Failed ea).merge (.Failed eb) = some (.Failed (ea ++ eb))) := by
  refine ⟨fun _ _ _ _ => rfl, fun la va lb vb => ?_, fun _ _ => rfl⟩
  show some (locsMerge la lb) = some (locsMerge lb la)
  rw [locsMerge, locsMerge, Finset.union_comm]

/-- C8: `Seek` outside `[0, len(tokens)]` is indeed a panic, but `Inc`
and `Dec` perform no bounds check at all: `Dec` at location 0 silently
produces location -1 and `Inc` at the end silently moves past it,
contradicting the claim (and the doc comments on `Dec`/`Inc`). -/
theorem C8_cursor_bounds :
    Tok.Dec ⟨[], [], 0, 0, 0⟩ = ⟨[], [], -1, 0, 0⟩
  ∧ Tok.Inc ⟨[], [⟨1, "x"⟩], 1, 0, 0⟩ = ⟨[], [⟨1, "x"⟩], 2, 0, 0⟩
  ∧ Tok.Seek ⟨[], [], 0, 0, 0⟩ (-1) = none
  ∧ Tok.Seek ⟨[], [⟨1, "x"⟩], 0, 0, 0⟩ 2 = none
  ∧ Tok.Seek ⟨[], [⟨1, "x"⟩], 0, 0, 0⟩ 1 = some ⟨[], [⟨1, "x"⟩], 1, 0, 0⟩ := by
  exact ⟨rfl, rfl, rfl, rfl, rfl⟩

theorem seqLoop_of_steps :
    ∀ (fuel : Nat) (ls : List Int) (n : String) (res : Result) (rest : Lazies)
      (acc : Result) (t : Tok) (rs : List Result) (tf : Tok) (rfin : Result),
      seqSteps fuel n res rest ls t = some (rs, tf) →
      foldJoinOpt acc rs = some rfin →
      seqLoop fuel n res rest acc ls t = .ok rfin tf := by
  intro fuel
  induction fuel with
  | zero =>
    intro ls n res rest acc t rs tf rfin h _
    simp [seqSteps] at h
  | succ fuel ih =>
    intro ls n res rest acc t rs tf rfin hsteps hfold
    cases ls with
    | nil =>
      rw [seqSteps] at hsteps
      obtain ⟨rfl, rfl⟩ : rs = [] ∧ tf = t := by
        cases hsteps; exact ⟨rfl, rfl⟩
      rw [foldJoinOpt] at hfold
      cases hfold
      rw [seqLoop]
    | cons loc more =>
      rw [seqSteps] at hsteps
      rw [seqLoop]
      cases hseek : t.Seek loc with
      | none => rw [hseek] at hsteps; cases hsteps
      | some t1 =>
        rw [hseek] at hsteps
        simp only [] at hsteps ⊢
        cases hm : mparse fuel n .seqF res rest t1 with
        | ok r t2 =>
          rw [hm] at hsteps
          simp only [] at hsteps
          cases hrec : seqSteps fuel n res rest more t2 with
          | none => rw [hrec] at hsteps; cases hsteps
          | some p =>
            obtain ⟨rs2, t3⟩ := p
            rw [hrec] at hsteps
            simp only [] at hsteps
            obtain ⟨rfl, rfl⟩ : rs = r :: rs2 ∧ tf = t3 := by
              cases hsteps; exact ⟨rfl, rfl⟩
            rw [foldJoinOpt] at hfold
            cases hj : Result.Join acc r with
            | none => rw [hj] at hfold; cases hfold
            | some acc2 =>
              rw [hj] at hfold
              simp only [] at hfold
              simp only []
              rw [hj]
              simp only []
              exact ih more n res rest acc2 t2 rs2 tf rfin hrec hfold
        | panic => rw [hm] at hsteps; cases hsteps
        | timeout => rw [hm] at hsteps; cases hsteps

theorem join_SF (a b : Result) (ha : isSF a = true) (hb : isSF b = true) :
    ∃ c, a.Join b = some c ∧ isSF c = true ∧ c.theLocs = a.theLocs ∪ b.theLocs := by
  cases a <;> cases b <;>
    simp_all [isSF, Result.Join, Result.merge, Result.theLocs, locsMerge]

theorem foldJoin_SF :
    ∀ (rs : List Result) (acc rfin : Result), isSF acc = true →
      (∀ r ∈ rs, isSF r = true) →
      foldJoinOpt acc rs = some rfin →
      isSF rfin = true ∧ rfin.theLocs = acc.theLocs ∪ unionLocs rs := by
  intro rs
  induction rs with
  | nil =>
    intro acc rfin ha _ h
    rw [foldJoinOpt] at h
    cases h
    simp [unionLocs, ha]
  | cons r rs ih =>
    intro acc rfin ha hall hfold
    obtain ⟨c, hj, hc, hl⟩ := join_SF acc r ha (hall r (by simp))
    rw [foldJoinOpt, hj] at hfold
    simp only [] at hfold
    obtain ⟨h1, h2⟩ := ih c rfin hc (fun x hx => hall x (by simp [hx])) hfold
    refine ⟨h1, ?_⟩
    rw [h2, hl]
    simp [unionLocs, Finset.union_assoc]

/-- C3: the `Seq` folder propagates an accumulated Failure unchanged;
on an accumulated Success it seeks the stream to every location of the
set of the Success (in iteration order), executes the remaining chain from
each, joins the per-location outcomes, and — whenever every attempt
returns an ordinary Success/Failure — the final location set is the
union of the location sets the attempts yield. -/
theorem C3_seq_fanout :
    (∀ (fuel : Nat) (n : String) (es : List ParseError) (rest : Lazies) (t : Tok),
       applyFolder (fuel + 2) .seqF n (.Failed es) rest t = .ok (.Failed es) t)
  ∧ (∀ (fuel : Nat) (n : String) (L : Locs) (v : Val) (rest : Lazies) (t : Tok)
       (rs : List Result) (tf : Tok) (rfin : Result),
       seqSteps (fuel + 1) n (.Succeeded L v) rest (sortLocs L) t = some (rs, tf) →
       (∀ r ∈ rs, isSF r = true) →
       foldJoinOpt (NewFailed "") rs = some rfin →
       applyFolder (fuel + 2) .seqF n (.Succeeded L v) rest t = .ok rfin tf
         ∧ rfin.theLocs = unionLocs rs) := by
  constructor
  · intro fuel n es rest t
    rw [applyFolder]
    simp only [Result.locsOf]
    rw [show sortLocs ∅ = [] from rfl, seqLoop]
  · intro fuel n L v rest t rs tf rfin hsteps hall hfold
    constructor
    · rw [applyFolder]
      simp only [Result.locsOf]
      exact seqLoop_of_steps (fuel + 1) (sortLocs L) n (.Succeeded L v) rest
        (NewFailed "") t rs tf rfin hsteps hfold
    · have h := foldJoin_SF rs (NewFailed "") rfin (by rfl) hall hfold
      rw [h.2]
      simp [NewFailed, Result.theLocs]

/-- C3 witness: a first step succeeding at locations 3 and 5 over a
five-token stream; the next step (an `Empty`) is attempted from both
locations and the combined location set is the union of the two
sets of the two attempts. -/
theorem C3_seq_fanout_witness :
    (seqSteps 9 "s" (.Succeeded {3, 5} (.vint 0)) (Lazies.one (NewLazy (.empty (.vint 1))))
        (sortLocs {3, 5})
        ⟨[], [⟨1, "a"⟩, ⟨1, "b"⟩, ⟨1, "c"⟩, ⟨1, "d"⟩, ⟨1, "e"⟩], 0, 0, 0⟩
      = some ([.Succeeded {3} (.vint 1), .Succeeded {5} (.vint 1)],
          ⟨[], [⟨1, "a"⟩, ⟨1, "b"⟩, ⟨1, "c"⟩, ⟨1, "d"⟩, ⟨1, "e"⟩], 5, 0, 0⟩)
      ∧ (∀ r ∈ [Result.Succeeded {3} (.vint 1), Result.Succeeded {5} (.vint 1)], isSF r = true)
      ∧ foldJoinOpt (NewFailed "") [.Succeeded {3} (.vint 1), .Succeeded {5} (.vint 1)]
          = some (.Succeeded {3, 5} (.vint 1)))
  ∧ (applyFolder 10 .seqF "s" (.Succeeded {3, 5} (.vint 0))
        (Lazies.one (NewLazy (.empty (.vint 1))))
        ⟨[], [⟨1, "a"⟩, ⟨1, "b"⟩, ⟨1, "c"⟩, ⟨1, "d"⟩, ⟨1, "e"⟩], 0, 0, 0⟩
      = .ok (.Succeeded {3, 5} (.vint 1))
          ⟨[], [⟨1, "a"⟩, ⟨1, "b"⟩, ⟨1, "c"⟩, ⟨1, "d"⟩, ⟨1, "e"⟩], 5, 0, 0⟩
      ∧ (Result.Succeeded {3, 5} (.vint 1)).theLocs
          = unionLocs [.Succeeded {3} (.vint 1), .Succeeded {5} (.vint 1)]) := by
  refine ⟨⟨by decide, by decide, by decide⟩, ?_⟩
  exact C3_seq_fanout.2 8 "s" {3, 5} (.vint 0) (Lazies.one (NewLazy (.empty (.vint 1))))
    ⟨[], [⟨1, "a"⟩, ⟨1, "b"⟩, ⟨1, "c"⟩, ⟨1, "d"⟩, ⟨1, "e"⟩], 0, 0, 0⟩
    [.Succeeded {3} (.vint 1), .Succeeded {5} (.vint 1)]
    ⟨[], [⟨1, "a"⟩, ⟨1, "b"⟩, ⟨1, "c"⟩, ⟨1, "d"⟩, ⟨1, "e"⟩], 5, 0, 0⟩
    (.Succeeded {3, 5} (.vint 1)) (by decide) (by decide) (by decide)

/-- C4 (amended): the chain engine returns a `Halt` produced by a
parse of a continuation immediately, whatever continuations remain queued;
and in the `Seq` fan-out a `Halt` produced at the final location of the
iteration becomes the overall result of the fold.  (A `Halt` at an
earlier location instead panics on the next iteration, see the
counterexample.) -/
theorem C4_halt_short_circuit :
    (∀ (fuel : Nat) (n : String) (f : FolderTag) (res : Result) (l : Val → Parser)
       (rest : Lazies) (t : Tok) (v : Val) (c m : String) (li co : Int) (t1 : Tok),
       res.value = some v →
       parseP fuel (l v) t = .ok (.Halt c m li co) t1 →
       mparse (fuel + 1) n f res (.cons l rest) t = .ok (.Halt c m li co) t1)
  ∧ (∀ (fuel : Nat) (n : String) (res : Result) (rest : Lazies) (acc : Result)
       (loc : Int) (t t1 : Tok) (c m : String) (li co : Int) (t2 : Tok),
       isSF acc = true →
       t.Seek loc = some t1 →
       mparse fuel n .seqF res rest t1 = .ok (.Halt c m li co) t2 →
       seqLoop (fuel + 1) n res rest acc [loc] t = .ok (.Halt c m li co) t2) := by
  constructor
  · intro fuel n f res l rest t v c m li co t1 hv h1
    simp [mparse, hv, h1]
  · intro fuel n res rest acc loc t t1 c m li co t2 hsf hseek hm
    cases fuel with
    | zero => simp [mparse] at hm
    | succ fuel =>
      rw [seqLoop]
      simp only [hseek, hm]
      cases acc with
      | Succeeded L v => simp [Result.Join, seqLoop]
      | Failed es => simp [Result.Join, seqLoop]
      | nilR => simp [isSF] at hsf
      | Halt a b d e => simp [isSF] at hsf

/-- C4 counterexample: a `Seq` fan-out over the location set `{0, 1}`
whose continuation halts at location 0 (a conversion error) does not
terminate with that `Halt`: the next iteration calls `Join` on the
`Halt` accumulator, which panics. -/
theorem C4_halt_mid_fanout_cex :
    applyFolder 10 .seqF "s" (.Succeeded {0, 1} .vnil)
        (Lazies.one (NewLazy (.term ⟨"b", 1, "", fun _ => none⟩)))
        ⟨[], [⟨1, "x"⟩], 0, 0, 0⟩
      = .panic
  ∧ POut.panic ≠ .ok (.Halt "conversion" "went wrong" 0 0) ⟨[], [⟨1, "x"⟩], 0, 0, 0⟩ := by
  exact ⟨by decide, by decide⟩

/-- C4 witness: a one-location fan-out halting at its (final) location
yields that `Halt` overall, and the engine returns the
`Halt` without touching the queued remainder. -/
theorem C4_halt_short_circuit_witness :
    ((Result.Failed []).value = some .vnil
      ∧ parseP 3 (NewLazy (.term ⟨"b", 1, "", fun _ => none⟩) .vnil) ⟨[], [⟨1, "x"⟩], 0, 0, 0⟩
          = .ok (.Halt "conversion" "went wrong" 0 0) ⟨[], [⟨1, "x"⟩], 0, 0, 0⟩
      ∧ mparse 4 "s" .seqF (.Failed [])
          (.cons (NewLazy (.term ⟨"b", 1, "", fun _ => none⟩)) (Lazies.one (NewLazy (.empty .vnil))))
          ⟨[], [⟨1, "x"⟩], 0, 0, 0⟩
          = .ok (.Halt "conversion" "went wrong" 0 0) ⟨[], [⟨1, "x"⟩], 0, 0, 0⟩)
  ∧ (isSF (NewFailed "") = true
      ∧ Tok.Seek ⟨[], [⟨1, "x"⟩], 0, 0, 0⟩ 0 = some ⟨[], [⟨1, "x"⟩], 0, 0, 0⟩
      ∧ mparse 3 "s" .seqF (.Failed []) (Lazies.one (NewLazy (.term ⟨"b", 1, "", fun _ => none⟩)))
          ⟨[], [⟨1, "x"⟩], 0, 0, 0⟩
          = .ok (.Halt "conversion" "went wrong" 0 0) ⟨[], [⟨1, "x"⟩], 0, 0, 0⟩
      ∧ seqLoop 4 "s" (.Failed []) (Lazies.one (NewLazy (.term ⟨"b", 1, "", fun _ => none⟩)))
          (NewFailed "") [0] ⟨[], [⟨1, "x"⟩], 0, 0, 0⟩
          = .ok (.Halt "conversion" "went wrong" 0 0) ⟨[], [⟨1, "x"⟩], 0, 0, 0⟩) := by
  refine ⟨⟨by decide, by decide, ?_⟩, ⟨by decide, by decide, by decide, ?_⟩⟩
  · exact C4_halt_short_circuit.1 3 "s" .seqF (.Failed [])
      (NewLazy (.term ⟨"b", 1, "", fun _ => none⟩)) (Lazies.one (NewLazy (.empty .vnil)))
      ⟨[], [⟨1, "x"⟩], 0, 0, 0⟩ .vnil "conversion" "went wrong" 0 0
      ⟨[], [⟨1, "x"⟩], 0, 0, 0⟩ (by decide) (by decide)
  · exact C4_halt_short_circuit.2 3 "s" (.Failed [])
      (Lazies.one (NewLazy (.term ⟨"b", 1, "", fun _ => none⟩))) (NewFailed "") 0
      ⟨[], [⟨1, "x"⟩], 0, 0, 0⟩ ⟨[], [⟨1, "x"⟩], 0, 0, 0⟩ "conversion" "went wrong" 0 0
      ⟨[], [⟨1, "x"⟩], 0, 0, 0⟩ (by decide) (by decide) (by decide)

/-- C10: in an alternation chain, after the first alternative succeeds
the next alternative is still executed — at the stream position the
successful alternative left — and when that later alternative returns a
`Halt` (for instance its terminal hits end of input), the `Join` of the
folder makes that `Halt` the overall result, overriding the earlier
Success. -/
theorem C10_either_runs_on (fuel : Nat) (n : String) (res : Result) (v0 v1 : Val)
    (L : Locs) (l1 l2 : Val → Parser) (t t1 t2 : Tok) (c m : String) (li co : Int)
    (hv : res.value = some v0)
    (h1 : parseP (fuel + 2) (l1 v0) t = .ok (.Succeeded L v1) t1)
    (h2 : parseP fuel (l2 v1) t1 = .ok (.Halt c m li co) t2) :
    mparse (fuel + 3) n .eitherF res (.cons l1 (Lazies.one l2)) t
      = .ok (.Halt c m li co) t2 := by
  rw [show fuel + 3 = (fuel + 2) + 1 from rfl, mparse, hv]
  simp only []
  rw [h1]
  simp only [Lazies.one]
  rw [show fuel + 2 = (fuel + 1) + 1 from rfl, applyFolder, mparse]
  simp only [Result.value]
  rw [h2]
  simp [Result.Join]

/-- C10 witness: with one category-1 token in the stream, the first
alternative consumes it and succeeds, the second alternative peeks end
of input from the new position (location 1, not the starting position
0 of the alternation) and halts, and the overall result is that `Halt`. -/
theorem C10_either_runs_on_witness :
    ((Result.Failed []).value = some .vnil
      ∧ parseP 7 (NewLazy (.term (NewTerm "a" 1)) .vnil) ⟨[⟨1, "x"⟩], [], 0, 0, 0⟩
          = .ok (.Succeeded {1} (.vstr "x")) ⟨[], [⟨1, "x"⟩], 1, 0, 0⟩
      ∧ parseP 5 (NewLazy (.term (NewTerm "a" 1)) (.vstr "x")) ⟨[], [⟨1, "x"⟩], 1, 0, 0⟩
          = .ok (.Halt "scanner" "end of file" 0 0) ⟨[], [⟨1, "x"⟩], 1, 0, 0⟩)
  ∧ mparse 8 "e" .eitherF (.Failed [])
      (.cons (NewLazy (.term (NewTerm "a" 1))) (Lazies.one (NewLazy (.term (NewTerm "a" 1)))))
      ⟨[⟨1, "x"⟩], [], 0, 0, 0⟩
      = .ok (.Halt "scanner" "end of file" 0 0) ⟨[], [⟨1, "x"⟩], 1, 0, 0⟩ := by
  refine ⟨⟨by decide, by decide, by decide⟩, ?_⟩
  exact C10_either_runs_on 5 "e" (.Failed []) .vnil (.vstr "x") {1}
    (NewLazy (.term (NewTerm "a" 1))) (NewLazy (.term (NewTerm "a" 1)))
    ⟨[⟨1, "x"⟩], [], 0, 0, 0⟩ ⟨[], [⟨1, "x"⟩], 1, 0, 0⟩ ⟨[], [⟨1, "x"⟩], 1, 0, 0⟩
    "scanner" "end of file" 0 0 (by decide) (by decide) (by decide)

/-- C5: over the tokeniser of the repository (which signals only end of
input, never an internal scanner message) and an in-range cursor,
`Term.Parse` has exactly four outcomes: no token available gives a
`Halt` tagged with the stream position; a category mismatch or a failed
exact-match constraint gives a `Failure` with one diagnostic (parser
name, actual text, line, column) without advancing the cursor; a
converter error gives a `Halt`; otherwise the cursor advances by exactly
one and the result is a Success at the new location carrying the
converted value. -/
theorem C5_term_outcomes (tm : Term) (t : Tok) (h0 : 0 ≤ t.loc)
    (h1 : t.loc ≤ (t.tokens.length : Int)) :
    (t.loc = (t.tokens.length : Int) ∧ t.scanner = [] ∧
      tm.Parse t = some (NewHalt "scanner" "end of file" t.line t.column, t))
  ∨ (∃ (token : Token) (t1 : Tok), Tok.loc t1 = t.loc ∧
      (token.category ≠ tm.category ∨ (tm.exactMatch ≠ "" ∧ token.matched ≠ tm.exactMatch)) ∧
      tm.Parse t = some (NewScanFailed tm.name token.matched t.line t.column, t1))
  ∨ (∃ (token : Token) (t1 : Tok), Tok.loc t1 = t.loc ∧ tm.converter token.matched = none ∧
      tm.Parse t = some (NewHalt "conversion" "went wrong" t.line t.column, t1))
  ∨ (∃ (token : Token) (t1 : Tok) (v : Val), tm.converter token.matched = some v ∧
      Tok.loc t1 = t.loc + 1 ∧
      tm.Parse t = some (.Succeeded (NewLocs t1.loc) v, t1)) := by
  by_cases hge : t.loc ≥ (t.tokens.length : Int)
  · have heq : t.loc = (t.tokens.length : Int) := le_antisymm h1 hge
    cases hscan : t.scanner with
    | nil =>
      left
      have hpeek : t.Peek = some (⟨0, ""⟩, ⟨-1, ""⟩, t) := by
        rw [Tok.Peek, if_pos hge, hscan]
      refine ⟨heq, rfl, ?_⟩
      simp [Term.Parse, hpeek]
    | cons tok rest =>
      have hpeek : t.Peek = some (tok, ⟨0, ""⟩,
          { t with scanner := rest, tokens := t.tokens ++ [tok] }) := by
        rw [Tok.Peek, if_pos hge, hscan]
        simp only []
        rw [if_pos heq]
      by_cases hmis : tok.category ≠ tm.category ∨ (tm.exactMatch ≠ "" ∧ tok.matched ≠ tm.exactMatch)
      · right; left
        refine ⟨tok, { t with scanner := rest, tokens := t.tokens ++ [tok] }, rfl, hmis, ?_⟩
        simp [Term.Parse, hpeek, hmis]
      · cases hconv : tm.converter tok.matched with
        | none =>
          right; right; left
          refine ⟨tok, { t with scanner := rest, tokens := t.tokens ++ [tok] }, rfl, hconv, ?_⟩
          simp [Term.Parse, hpeek, hmis, hconv]
        | some v =>
          right; right; right
          refine ⟨tok, Tok.Inc { t with scanner := rest, tokens := t.tokens ++ [tok] }, v,
            hconv, by simp [Tok.Inc], ?_⟩
          simp [Term.Parse, hpeek, hmis, hconv, NewSucceeded, Tok.Inc]
  · have hlt : t.loc < (t.tokens.length : Int) := lt_of_not_ge hge
    have h2 : t.loc.toNat < t.tokens.length := by omega
    have hpeek : t.Peek = some (t.tokens.get ⟨t.loc.toNat, h2⟩, ⟨0, ""⟩, t) := by
      rw [Tok.Peek, if_neg hge, dif_pos (⟨h0, h2⟩ : 0 ≤ t.loc ∧ t.loc.toNat < t.tokens.length)]
    set tok := t.tokens.get ⟨t.loc.toNat, h2⟩ with htok
    by_cases hmis : tok.category ≠ tm.category ∨ (tm.exactMatch ≠ "" ∧ tok.matched ≠ tm.exactMatch)
    · right; left
      exact ⟨tok, t, rfl, hmis, by simp [Term.Parse, hpeek, hmis]⟩
    · cases hconv : tm.converter tok.matched with
      | none =>
        right; right; left
        exact ⟨tok, t, rfl, hconv, by simp [Term.Parse, hpeek, hmis, hconv]⟩
      | some v =>
        right; right; right
        refine ⟨tok, t.Inc, v, hconv, by simp [Tok.Inc], ?_⟩
        simp [Term.Parse, hpeek, hmis, hconv, NewSucceeded, Tok.Inc]

/-- C5 witness: a stream with one unscanned category-1 token and a
terminal of category 1, whose parse takes the success outcome. -/
theorem C5_term_outcomes_witness :
    (0 ≤ Tok.loc ⟨[⟨1, "x"⟩], [], 0, 0, 0⟩
      ∧ Tok.loc ⟨[⟨1, "x"⟩], [], 0, 0, 0⟩
          ≤ ((Tok.tokens ⟨[⟨1, "x"⟩], [], 0, 0, 0⟩).length : Int))
  ∧ ((Tok.loc ⟨[⟨1, "x"⟩], [], 0, 0, 0⟩
        = ((Tok.tokens ⟨[⟨1, "x"⟩], [], 0, 0, 0⟩).length : Int)
      ∧ Tok.scanner ⟨[⟨1, "x"⟩], [], 0, 0, 0⟩ = []
      ∧ Term.Parse (NewTerm "a" 1) ⟨[⟨1, "x"⟩], [], 0, 0, 0⟩
          = some (NewHalt "scanner" "end of file" 0 0, ⟨[⟨1, "x"⟩], [], 0, 0, 0⟩))
    ∨ (∃ (token : Token) (t1 : Tok), Tok.loc t1 = Tok.loc ⟨[⟨1, "x"⟩], [], 0, 0, 0⟩ ∧
        (token.category ≠ (NewTerm "a" 1).category
          ∨ ((NewTerm "a" 1).exactMatch ≠ "" ∧ token.matched ≠ (NewTerm "a" 1).exactMatch)) ∧
        Term.Parse (NewTerm "a" 1) ⟨[⟨1, "x"⟩], [], 0, 0, 0⟩
          = some (NewScanFailed (NewTerm "a" 1).name token.matched 0 0, t1))
    ∨ (∃ (token : Token) (t1 : Tok), Tok.loc t1 = Tok.loc ⟨[⟨1, "x"⟩], [], 0, 0, 0⟩ ∧
        (NewTerm "a" 1).converter token.matched = none ∧
        Term.Parse (NewTerm "a" 1) ⟨[⟨1, "x"⟩], [], 0, 0, 0⟩
          = some (NewHalt "conversion" "went wrong" 0 0, t1))
    ∨ (∃ (token : Token) (t1 : Tok) (v : Val), (NewTerm "a" 1).converter token.matched = some v ∧
        Tok.loc t1 = Tok.loc ⟨[⟨1, "x"⟩], [], 0, 0, 0⟩ + 1 ∧
        Term.Parse (NewTerm "a" 1) ⟨[⟨1, "x"⟩], [], 0, 0, 0⟩
          = some (.Succeeded (NewLocs t1.loc) v, t1))) := by
  refine ⟨⟨by decide, by decide⟩, ?_⟩
  exact C5_term_outcomes (NewTerm "a" 1) ⟨[⟨1, "x"⟩], [], 0, 0, 0⟩ (by decide) (by decide)

theorem runOp_tokens_grow (op : TokOp) (t t1 : Tok) (h : runOp op t = some t1) :
    ∃ ext, t1.tokens = t.tokens ++ ext := by
  cases op with
  | opInc => rw [runOp] at h; cases h; exact ⟨[], by simp [Tok.Inc]⟩
  | opDec => rw [runOp] at h; cases h; exact ⟨[], by simp [Tok.Dec]⟩
  | opSeek k =>
    rw [runOp, Tok.Seek] at h
    by_cases hc : k < 0 ∨ k > (t.tokens.length : Int)
    · rw [if_pos hc] at h; cases h
    · rw [if_neg hc] at h; cases h; exact ⟨[], by simp⟩
  | opPeek =>
    rw [runOp] at h
    cases hp : t.Peek with
    | none => rw [hp] at h; cases h
    | some trip =>
      obtain ⟨tok, err, t2⟩ := trip
      rw [hp] at h
      simp only [] at h
      cases h
      rw [Tok.Peek] at hp
      by_cases hge : t.loc ≥ (t.tokens.length : Int)
      · rw [if_pos hge] at hp
        cases hscan : t.scanner with
        | nil => rw [hscan] at hp; cases hp; exact ⟨[], by simp⟩
        | cons tk rest =>
          rw [hscan] at hp
          simp only [] at hp
          by_cases heq : t.loc = (t.tokens.length : Int)
          · rw [if_pos heq] at hp
            simp only [Option.some.injEq, Prod.mk.injEq] at hp
            obtain ⟨h1, h2, h3⟩ := hp
            exact ⟨[tk], by rw [← h3]⟩
          · rw [if_neg heq] at hp; cases hp
      · rw [if_neg hge] at hp
        by_cases hb : 0 ≤ t.loc ∧ t.loc.toNat < t.tokens.length
        · rw [dif_pos hb] at hp; cases hp; exact ⟨[], by simp⟩
        · rw [dif_neg hb] at hp; cases hp

theorem runOps_tokens_grow :
    ∀ (ops : List TokOp) (t t2 : Tok), runOps ops t = some t2 →
      ∃ ext, t2.tokens = t.tokens ++ ext := by
  intro ops
  induction ops with
  | nil =>
    intro t t2 h
    rw [runOps] at h
    cases h
    exact ⟨[], by simp⟩
  | cons op ops ih =>
    intro t t2 h
    rw [runOps] at h
    cases hop : runOp op t with
    | none => rw [hop] at h; cases h
    | some t1 =>
      rw [hop] at h
      simp only [] at h
      obtain ⟨e1, he1⟩ := runOp_tokens_grow op t t1 hop
      obtain ⟨e2, he2⟩ := ih t1 t2 h
      exact ⟨e1 ++ e2, by rw [he2, he1, List.append_assoc]⟩

theorem peek_ok_cached (t : Tok) (tok : Token) (e : ScanErr) (t1 : Tok)
    (h : t.Peek = some (tok, e, t1)) (he : e.errType = 0) :
    0 ≤ t.loc ∧ t.loc.toNat < t1.tokens.length
      ∧ t1.tokens[t.loc.toNat]? = some tok ∧ t1.loc = t.loc := by
  rw [Tok.Peek] at h
  by_cases hge : t.loc ≥ (t.tokens.length : Int)
  · rw [if_pos hge] at h
    cases hscan : t.scanner with
    | nil =>
      rw [hscan] at h
      cases h
      simp at he
    | cons tk rest =>
      rw [hscan] at h
      simp only [] at h
      by_cases heq : t.loc = (t.tokens.length : Int)
      · rw [if_pos heq] at h
        cases h
        have hn : t.loc.toNat = t.tokens.length := by omega
        refine ⟨by omega, ?_, ?_, rfl⟩
        · simp [hn]
        · rw [hn]
          simp
      · rw [if_neg heq] at h; cases h
  · rw [if_neg hge] at h
    by_cases hb : 0 ≤ t.loc ∧ t.loc.toNat < t.tokens.length
    · rw [dif_pos hb] at h
      cases h
      exact ⟨hb.1, hb.2, by simp [List.getElem?_eq_getElem hb.2], rfl⟩
    · rw [dif_neg hb] at h; cases h

/-- C9: backtracking is deterministic.  If a `Peek` at some location
yields a token, then after any sequence of `Inc`/`Dec`/`Seek`/`Peek`
operations, `Seek`-ing back to that location succeeds and a fresh `Peek`
returns exactly the same token — and leaves the tokeniser unchanged
(the cached token is never re-scanned). -/
theorem C9_backtrack_determinism (t : Tok) (token : Token) (e : ScanErr) (t1 t2 : Tok)
    (ops : List TokOp)
    (hp : t.Peek = some (token, e, t1)) (he : e.errType = 0)
    (hops : runOps ops t1 = some t2) :
    ∃ t3, t2.Seek t.loc = some t3 ∧ t3.Peek = some (token, ⟨0, ""⟩, t3) := by
  obtain ⟨hl0, hlt, hget, -⟩ := peek_ok_cached t token e t1 hp he
  obtain ⟨ext, hext⟩ := runOps_tokens_grow ops t1 t2 hops
  have hlen : t1.tokens.length ≤ t2.tokens.length := by
    rw [hext]; simp
  have hlt2 : t.loc.toNat < t2.tokens.length := lt_of_lt_of_le hlt hlen
  have hseek : t2.Seek t.loc = some { t2 with loc := t.loc } := by
    rw [Tok.Seek, if_neg]
    push_neg
    exact ⟨hl0, by omega⟩
  refine ⟨{ t2 with loc := t.loc }, hseek, ?_⟩
  have hget2 : t2.tokens[t.loc.toNat]? = some token := by
    rw [hext, List.getElem?_append_left hlt]
    exact hget
  have hgetel : t2.tokens.get ⟨t.loc.toNat, hlt2⟩ = token := by
    have := hget2
    rw [List.getElem?_eq_getElem hlt2] at this
    simpa using this
  rw [Tok.Peek]
  rw [if_neg (by simp; omega), dif_pos (⟨hl0, hlt2⟩ : 0 ≤ t.loc ∧ t.loc.toNat < t2.tokens.length)]
  rw [List.get_eq_getElem] at hgetel
  simp [hgetel]

/-- C9 witness: peek the first token, then move about, peek a second
token, seek back and peek again: the original token is returned from
the cache. -/
theorem C9_backtrack_determinism_witness :
    (Tok.Peek ⟨[⟨1, "x"⟩, ⟨2, "y"⟩], [], 0, 0, 0⟩
        = some (⟨1, "x"⟩, ⟨0, ""⟩, ⟨[⟨2, "y"⟩], [⟨1, "x"⟩], 0, 0, 0⟩)
      ∧ (ScanErr.errType ⟨0, ""⟩ = 0)
      ∧ runOps [.opInc, .opPeek, .opSeek 0, .opInc] ⟨[⟨2, "y"⟩], [⟨1, "x"⟩], 0, 0, 0⟩
          = some ⟨[], [⟨1, "x"⟩, ⟨2, "y"⟩], 1, 0, 0⟩)
  ∧ (∃ t3, Tok.Seek ⟨[], [⟨1, "x"⟩, ⟨2, "y"⟩], 1, 0, 0⟩
        (Tok.loc ⟨[⟨1, "x"⟩, ⟨2, "y"⟩], [], 0, 0, 0⟩) = some t3
      ∧ t3.Peek = some (⟨1, "x"⟩, ⟨0, ""⟩, t3)) := by
  refine ⟨⟨by decide, by decide, by decide⟩, ?_⟩
  exact C9_backtrack_determinism ⟨[⟨1, "x"⟩, ⟨2, "y"⟩], [], 0, 0, 0⟩ ⟨1, "x"⟩ ⟨0, ""⟩
    ⟨[⟨2, "y"⟩], [⟨1, "x"⟩], 0, 0, 0⟩ ⟨[], [⟨1, "x"⟩, ⟨2, "y"⟩], 1, 0, 0⟩
    [.opInc, .opPeek, .opSeek 0, .opInc] (by decide) (by decide) (by decide)

end LLK
